import Mathlib

/-!
Verification of the `conformalize` library helpers (`src/conformalize/lib.py`)
and their near-duplicates in `script.py`.

The data model: values flowing through these helpers are Python objects —
scalars (ints, strings) and string-keyed mappings.  `Value` embeds them.
Python mappings are modelled as association lists in insertion order with
unique keys; `==` on values is modelled by structural equality (all mapping
comparisons below are between mappings built in matching key order).
-/

inductive Value where
  | int : Int → Value
  | str : String → Value
  | dict : List (String × Value) → Value

/-- Whether a value is a Python mapping. -/
def Value.isDict : Value → Bool
  | .dict _ => true
  | _ => false

mutual

/-- Python `==` on embedded values (structural; see the header note). -/
def Value.beq : Value → Value → Bool
  | .int m, .int n => m == n
  | .str s, .str t => s == t
  | .dict a, .dict b => beqEntries a b
  | _, _ => false
  termination_by a _ => sizeOf a

/-- Entrywise equality of two mappings' entry lists. -/
def beqEntries : List (String × Value) → List (String × Value) → Bool
  | [], [] => true
  | (k, v) :: r, (k2, v2) :: r2 => k == k2 && Value.beq v v2 && beqEntries r r2
  | _, _ => false
  termination_by es _ => sizeOf es

end

instance : BEq Value := ⟨Value.beq⟩

mutual

theorem Value.beq_eq : ∀ a b : Value, Value.beq a b = true ↔ a = b
  | .int m, .int n => by simp [Value.beq]
  | .int _, .str _ => by simp [Value.beq]
  | .int _, .dict _ => by simp [Value.beq]
  | .str _, .int _ => by simp [Value.beq]
  | .str s, .str t => by simp [Value.beq]
  | .str _, .dict _ => by simp [Value.beq]
  | .dict _, .int _ => by simp [Value.beq]
  | .dict _, .str _ => by simp [Value.beq]
  | .dict a, .dict b => by
      have h := beqEntries_eq a b
      simp only [Value.beq]
      rw [h]
      simp
  termination_by a _ => sizeOf a

theorem beqEntries_eq : ∀ a b : List (String × Value), beqEntries a b = true ↔ a = b
  | [], [] => by simp [beqEntries]
  | [], _ :: _ => by simp [beqEntries]
  | _ :: _, [] => by simp [beqEntries]
  | (k, v) :: r, (k2, v2) :: r2 => by
      have h1 := Value.beq_eq v v2
      have h2 := beqEntries_eq r r2
      simp only [beqEntries, Bool.and_eq_true]
      rw [h1, h2]
      simp [and_assoc]
  termination_by es _ => sizeOf es

end

instance : DecidableEq Value := fun a b => decidable_of_iff _ (Value.beq_eq a b)

instance : LawfulBEq Value where
  eq_of_beq h := (Value.beq_eq _ _).mp h
  rfl := (Value.beq_eq _ _).mpr rfl

/-- Python exceptions raised by subscripting: `d[k]` raises `KeyError` when
`d` is a mapping without key `k`, and `TypeError` when `d` is not a mapping. -/
inductive PyErr where
  | keyError
  | typeError
deriving DecidableEq

/-- First-occurrence lookup in a mapping's entry list (Python `dict` lookup;
real Python mappings have unique keys). -/
def lookup : List (String × Value) → String → Option Value
  | [], _ => none
  | (k, v) :: rest, key => if k == key then some v else lookup rest key

/-- Python subscripting `d[k]` on a `Value`. -/
def getItem : Value → String → Except PyErr Value
  | Value.dict es, k =>
      match lookup es k with
      | some v => Except.ok v
      | none => Except.error PyErr.keyError
  | _, _ => Except.error PyErr.typeError

mutual

/-- Embedding of `is_partial_dict(obj, dict_)` from `lib.py`: returns `False` when `obj`
is not a mapping; otherwise, for each key of `obj`, looks the key up in
`dict_` (a `KeyError` records `False` for that key; an uncaught `TypeError`
propagates, modelled as `Except.error ()`), recursing when both values are
mappings and comparing with `==` otherwise; finally conjoins all per-key
results. -/
def is_partial_dict : Value → Value → Except Unit Bool
  | Value.dict es, d =>
      match ipdEntries es d with
      | Except.ok rs => Except.ok (rs.all id)
      | Except.error e => Except.error e
  | _, _ => Except.ok false
  termination_by a _ => sizeOf a

/-- The `for key, obj_value in obj.items()` loop body of `is_partial_dict`,
producing the list of per-key results in order. -/
def ipdEntries : List (String × Value) → Value → Except Unit (List Bool)
  | [], _ => Except.ok []
  | (k, v) :: rest, d =>
      match getItem d k with
      | Except.error PyErr.typeError => Except.error ()
      | Except.error PyErr.keyError =>
          match ipdEntries rest d with
          | Except.ok rs => Except.ok (false :: rs)
          | Except.error e => Except.error e
      | Except.ok dv =>
          match v, dv with
          | Value.dict a, Value.dict b =>
              match is_partial_dict (Value.dict a) (Value.dict b) with
              | Except.ok r =>
                  match ipdEntries rest d with
                  | Except.ok rs => Except.ok (r :: rs)
                  | Except.error e => Except.error e
              | Except.error e => Except.error e
          | v, dv =>
              match ipdEntries rest d with
              | Except.ok rs => Except.ok ((v == dv) :: rs)
              | Except.error e => Except.error e
  termination_by es _ => sizeOf es

end

/-- The failure modes of `get_partial_dict`: `one` from the `utilities`
dependency raises `OneEmptyError` on zero matches and `OneNonUniqueError`
(carrying the first two matches) on two or more; an uncaught Python
`TypeError` from the match predicate propagates as well. -/
inductive GetPartialError where
  | typeError
  | oneEmpty
  | oneNonUnique (first second : Value)
deriving DecidableEq

/-- Lazy scan for the first matching element after the first match has been
found: the generator underlying `one` is advanced until a second match or the
end; elements beyond it are never tested. -/
def takeOneMatch (spec : Value) : List Value → Except Unit (List Value)
  | [] => Except.ok []
  | x :: rest =>
      match is_partial_dict spec x with
      | Except.error e => Except.error e
      | Except.ok true => Except.ok [x]
      | Except.ok false => takeOneMatch spec rest

/-- Modelled from the spec: `one` from the `utilities` dependency (not in
the repository) consumes the generator `(i for i in iterable if
is_partial_dict(dict_, i))` lazily, stopping at the second match: it returns
at most the first two matching elements, propagating any exception the
predicate raises on the elements it tests. -/
def takeTwoMatches (spec : Value) : List Value → Except Unit (List Value)
  | [] => Except.ok []
  | x :: rest =>
      match is_partial_dict spec x with
      | Except.error e => Except.error e
      | Except.ok true =>
          match takeOneMatch spec rest with
          | Except.ok more => Except.ok (x :: more)
          | Except.error e => Except.error e
      | Except.ok false => takeTwoMatches spec rest

/-- Embedding of `get_partial_dict(iterable, dict_)` from `lib.py`: the unique element of
`iterable` for which `is_partial_dict(dict_, i)` holds (note the swapped
argument order), via `one`.  Logging (`skip_log`) is a side effect only; the
logged first two matches are the payload of `oneNonUnique`. -/
def get_partial_dict (iterable : List Value) (dict_ : Value) :
    Except GetPartialError Value :=
  match takeTwoMatches dict_ iterable with
  | Except.error () => Except.error GetPartialError.typeError
  | Except.ok [] => Except.error GetPartialError.oneEmpty
  | Except.ok [x] => Except.ok x
  | Except.ok (x :: y :: _) => Except.error (GetPartialError.oneNonUnique x y)

/-- Python mapping merge `a | b`: `a`'s keys in order with values overridden
by `b` where present, then `b`'s new keys in `b`'s order (for mappings with
unique keys). -/
def dictMerge (a b : List (String × Value)) : List (String × Value) :=
  (a.map fun kv => match lookup b kv.1 with
    | some w => (kv.1, w)
    | none => kv)
  ++ b.filter fun kv => (lookup a kv.1).isNone

/-- Embedding of `ensure_contains_partial(container, partial, extra=extra)` from `lib.py`:
returns the unique partial match if one exists; on `OneEmptyError` appends
`partial | (extra or {})` and returns it; `OneNonUniqueError` (and any
`TypeError`) propagates.  The result pairs the final container with the
returned mapping. -/
def ensure_contains_partial (container : List Value)
    (partial_ : List (String × Value)) (extra : Option (List (String × Value))) :
    Except GetPartialError (List Value × Value) :=
  match get_partial_dict container (Value.dict partial_) with
  | Except.ok found => Except.ok (container, found)
  | Except.error GetPartialError.oneEmpty =>
      let dict_ := Value.dict (dictMerge partial_ (extra.getD []))
      Except.ok (container ++ [dict_], dict_)
  | Except.error e => Except.error e

/-- A mutable sequence handed to `ensure_contains`: either a `tomlkit`
array-of-tables (`AoT`) or a plain appendable sequence, with its elements. -/
structure Sequence where
  isAoT : Bool
  elems : List Value
deriving DecidableEq

/-- Outcome of a mutating call: whether an exception was raised, and the
final state of the sequence (an exception raised before any mutation leaves
the input state intact). -/
structure EnsureResult where
  raised : Bool
  final : Sequence
deriving DecidableEq

/-- Embedding of `ensure_contains(array, *objs)` from `lib.py`: raises `TypeError` when
`array` is an `AoT` (directing callers to `ensure_aot_contains`); otherwise
appends each object not already present (by `==`), in order. -/
def ensure_contains (array : Sequence) (objs : List Value) : EnsureResult :=
  if array.isAoT then ⟨true, array⟩
  else
    ⟨false,
      { array with
        elems := objs.foldl (fun es o => if es.contains o then es else es ++ [o])
          array.elems }⟩

/-- Embedding of `ensure_aot_contains(array, *tables)` from `lib.py`: appends each table
not already present to the array-of-tables. -/
def ensure_aot_contains (array : Sequence) (tables : List Value) : EnsureResult :=
  ⟨false,
    { array with
      elems := tables.foldl (fun es o => if es.contains o then es else es ++ [o])
        array.elems }⟩

/-- The flat match predicate of `_get_partial_dict` in `script.py`:
`isinstance(d, dict) and set(dict_).issubset(d) and all(d[k] == v for k, v in
dict_.items())`. -/
def flatMatch (dict_ : List (String × Value)) : Value → Bool
  | Value.dict d =>
      (dict_.all fun kv => (lookup d kv.1).isSome)
      && (dict_.all fun kv => lookup d kv.1 == some kv.2)
  | _ => false

/-- Embedding of `_get_partial_dict(iterable, dict_)` from `script.py`: `one` over the
generator filtered by the flat predicate (total, so the lazy scan coincides
with the first two elements of the filter). -/
def script_get_partial_dict (iterable : List Value)
    (dict_ : List (String × Value)) : Except GetPartialError Value :=
  match (iterable.filter (flatMatch dict_)).take 2 with
  | [] => Except.error GetPartialError.oneEmpty
  | [x] => Except.ok x
  | x :: y :: _ => Except.error (GetPartialError.oneNonUnique x y)

/-- The partial-match rule in the words of the claims (C1's amended rule,
C10): the second value must be a mapping in which every key of the first
mapping is present with a matching value — recursing when both values are
mappings and requiring `==` otherwise. -/
def claimMatch : List (String × Value) → Value → Bool
  | [], Value.dict _ => true
  | (k, Value.dict sub) :: rest, Value.dict fs =>
      (match lookup fs k with
       | some (Value.dict fsub) => claimMatch sub (Value.dict fsub)
       | _ => false)
      && claimMatch rest (Value.dict fs)
  | (k, v) :: rest, Value.dict fs =>
      (lookup fs k == some v) && claimMatch rest (Value.dict fs)
  | _, _ => false
  termination_by sp _ => sizeOf sp

/-- The candidate-side rule exactly as C1's sentence states it: every key of
the candidate either is absent from the spec (unconstrained, vacuously fine)
or carries a matching value, recursing when both values are mappings and
requiring `==` otherwise. -/
def ruleVacuous : List (String × Value) → List (String × Value) → Bool
  | [], _ => true
  | (k, Value.dict sub) :: rest, sp =>
      (match lookup sp k with
       | none => true
       | some (Value.dict ssub) => ruleVacuous sub ssub
       | some _ => false)
      && ruleVacuous rest sp
  | (k, v) :: rest, sp =>
      (match lookup sp k with
       | none => true
       | some w => v == w)
      && ruleVacuous rest sp
  termination_by cand _ => sizeOf cand

/-- Observable outcome of one pass through a write context: whether the
target file was (re)written, the content written, and whether the path was
recorded in the modification set. -/
structure WriteOutcome where
  wrote : Bool
  written : Option String
  added : Bool
deriving DecidableEq

/-- Embedding of `yield_write_context(path, loads, get_default, dumps, modifications=…)`
from `lib.py`.  The filesystem is abstracted: `initial` is the target's
content on entering the context (`none` when absent — `FileNotFoundError`),
`reread` its content at the moment the mutation closure finishes (differing
from `initial` exactly when the file is changed externally during the
mutation), `closure` the caller's in-place mutation of the yielded document,
and `track` whether a modification set was supplied.  The source compares
`data == loads(current)` against a re-parse of the text read *before* the
closure ran.  Modelled from the spec: `writer` from the `utilities`
dependency (not in the repository) atomically replaces the target, so a
write is modelled as the serialized document reaching the path and — per
`write_text` — the path entering the modification set when one was
supplied. -/
def yield_write_context {T : Type} [BEq T] (loads : String → T)
    (get_default : T) (dumps : T → String) (closure : T → T) (track : Bool)
    (initial : Option String) (reread : String) : WriteOutcome :=
  match initial with
  | none =>
      let default := get_default
      let data := closure default
      ⟨true, some (dumps data), track⟩
  | some current =>
      let data := closure (loads current)
      let is_equal := data == loads current
      if is_equal then ⟨false, none, false⟩
      else ⟨true, some (dumps data), track⟩

/-- Embedding of `_yield_write_context(path, loads, get_default, dumps)` from
`script.py`, abstracted exactly as `yield_write_context` above.  Here the
source re-reads the file after the closure (`current =
loads(path.read_text())` following the `yield`) and compares against that;
`_write_path_and_modified` always records the path. -/
def script_yield_write_context {T : Type} [BEq T] (loads : String → T)
    (get_default : T) (dumps : T → String) (closure : T → T)
    (initial : Option String) (reread : String) : WriteOutcome :=
  match initial with
  | none =>
      let default := get_default
      let data := closure default
      ⟨true, some (dumps data), true⟩
  | some s =>
      let data := closure (loads s)
      let current := loads reread
      if data == current then ⟨false, none, false⟩
      else ⟨true, some (dumps data), true⟩

theorem Value.beq_def (a b : Value) : (a == b) = Value.beq a b := rfl

theorem Value.beq_comm (a b : Value) : (a == b) = (b == a) := by
  cases hab : a == b <;> cases hba : b == a <;> try rfl
  · rw [beq_iff_eq] at hba; subst hba; simp at hab
  · rw [beq_iff_eq] at hab; subst hab; simp at hba

theorem ipdEntries_claim : ∀ (a fs : List (String × Value)),
    ∃ rs, ipdEntries a (Value.dict fs) = Except.ok rs ∧
      rs.all id = claimMatch a (Value.dict fs)
  | [], fs => ⟨[], by simp [ipdEntries, claimMatch]⟩
  | (k, v) :: rest, fs => by
      obtain ⟨rs, hr, hall⟩ := ipdEntries_claim rest fs
      cases hl : lookup fs k with
      | none =>
          refine ⟨false :: rs, ?_, ?_⟩
          · simp [ipdEntries, getItem, hl, hr]
          · cases v <;> simp [claimMatch, hl, hall]
      | some w =>
          cases v with
          | dict sub =>
              cases w with
              | dict fsub =>
                  obtain ⟨rs2, hr2, hall2⟩ := ipdEntries_claim sub fsub
                  refine ⟨claimMatch sub (Value.dict fsub) :: rs, ?_, ?_⟩
                  · simp [ipdEntries, getItem, hl, hr, is_partial_dict, hr2, hall2]
                  · simp [claimMatch, hl, hall]
              | int n =>
                  refine ⟨(Value.dict sub == Value.int n) :: rs, ?_, ?_⟩
                  · simp [ipdEntries, getItem, hl, hr]
                  · simp [claimMatch, hl, hall, Value.beq]
              | str s =>
                  refine ⟨(Value.dict sub == Value.str s) :: rs, ?_, ?_⟩
                  · simp [ipdEntries, getItem, hl, hr]
                  · simp [claimMatch, hl, hall, Value.beq]
          | int n =>
              refine ⟨(Value.int n == w) :: rs, ?_, ?_⟩
              · cases w <;> simp [ipdEntries, getItem, hl, hr]
              · simp [claimMatch, hl, hall, Value.beq_comm]
          | str s =>
              refine ⟨(Value.str s == w) :: rs, ?_, ?_⟩
              · cases w <;> simp [ipdEntries, getItem, hl, hr]
              · simp [claimMatch, hl, hall, Value.beq_comm]
  termination_by a _ => sizeOf a

/-- On two mappings `is_partial_dict` never raises, and computes exactly the
claims' keys-must-be-present rule. -/
theorem ipd_claim (a fs : List (String × Value)) :
    is_partial_dict (Value.dict a) (Value.dict fs)
      = Except.ok (claimMatch a (Value.dict fs)) := by
  obtain ⟨rs, hr, hall⟩ := ipdEntries_claim a fs
  simp [is_partial_dict, hr, hall]

/-- Whether `is_partial_dict spec x` evaluates without raising. -/
def ipdOk (spec x : Value) : Bool :=
  match is_partial_dict spec x with
  | Except.ok _ => true
  | Except.error _ => false

/-- The Boolean verdict of `is_partial_dict spec x` (`false` when it
raises). -/
def pmatches (spec x : Value) : Bool :=
  match is_partial_dict spec x with
  | Except.ok b => b
  | Except.error _ => false

theorem takeOneMatch_filter (spec : Value) :
    ∀ seq : List Value, (∀ x ∈ seq, ipdOk spec x = true) →
      takeOneMatch spec seq = Except.ok ((seq.filter (pmatches spec)).take 1)
  | [], _ => by simp [takeOneMatch]
  | x :: rest, h => by
      have hx := h x (List.mem_cons_self x rest)
      have hrest := takeOneMatch_filter spec rest
        (fun y hy => h y (List.mem_cons_of_mem x hy))
      cases hipd : is_partial_dict spec x with
      | error e => simp [ipdOk, hipd] at hx
      | ok b =>
          cases b with
          | true => simp [takeOneMatch, hipd, List.filter, pmatches]
          | false => simp [takeOneMatch, hipd, List.filter, pmatches, hrest]

theorem takeTwoMatches_filter (spec : Value) :
    ∀ seq : List Value, (∀ x ∈ seq, ipdOk spec x = true) →
      takeTwoMatches spec seq = Except.ok ((seq.filter (pmatches spec)).take 2)
  | [], _ => by simp [takeTwoMatches]
  | x :: rest, h => by
      have hx := h x (List.mem_cons_self x rest)
      have hrest : ∀ y ∈ rest, ipdOk spec y = true :=
        fun y hy => h y (List.mem_cons_of_mem x hy)
      cases hipd : is_partial_dict spec x with
      | error e => simp [ipdOk, hipd] at hx
      | ok b =>
          cases b with
          | true =>
              have h1 := takeOneMatch_filter spec rest hrest
              simp [takeTwoMatches, hipd, h1, List.filter, pmatches]
          | false =>
              have h2 := takeTwoMatches_filter spec rest hrest
              simp [takeTwoMatches, hipd, List.filter, pmatches, h2]

/-- C2: `is_partial_dict` returns exactly the spec's concrete test-table
values on the eight listed candidate/spec pairs. -/
theorem C2_is_partial_dict_table :
    is_partial_dict (Value.dict []) (Value.dict []) = Except.ok true ∧
    is_partial_dict (Value.dict []) (Value.dict [("a", Value.int 1)])
      = Except.ok true ∧
    is_partial_dict (Value.dict [("a", Value.int 1)]) (Value.dict [])
      = Except.ok false ∧
    is_partial_dict (Value.dict [("a", Value.int 1)])
        (Value.dict [("a", Value.int 1)]) = Except.ok true ∧
    is_partial_dict (Value.dict [("a", Value.int 1)])
        (Value.dict [("a", Value.int 2)]) = Except.ok false ∧
    is_partial_dict (Value.dict [("a", Value.int 1), ("b", Value.int 2)])
        (Value.dict [("a", Value.int 1)]) = Except.ok false ∧
    is_partial_dict
        (Value.dict [("a", Value.int 1), ("b", Value.dict [("c", Value.int 2)])])
        (Value.dict [("a", Value.int 1), ("b", Value.dict [])])
      = Except.ok false ∧
    is_partial_dict (Value.dict [("a", Value.int 1), ("b", Value.dict [])])
        (Value.dict [("a", Value.int 1), ("b", Value.dict [("c", Value.int 2)])])
      = Except.ok true := by
  refine ⟨?_, ?_, ?_, ?_, ?_, ?_, ?_, ?_⟩ <;>
    simp [is_partial_dict, ipdEntries, getItem, lookup, Value.beq]

/-- C1 fails on the code: the candidate `{"a": 1}` has its only key absent
from the spec `{}`, so the claimed rule (absent keys are unconstrained)
predicts a match, yet `is_partial_dict` returns `False`. -/
theorem C1_cex :
    is_partial_dict (Value.dict [("a", Value.int 1)]) (Value.dict [])
      = Except.ok false ∧
    ruleVacuous [("a", Value.int 1)] [] = true := by
  constructor
  · simp [is_partial_dict, ipdEntries, getItem, lookup]
  · simp [ruleVacuous, lookup]

/-- C1 (amended): on two mappings, `is_partial_dict(candidate, spec)` returns
true iff every key of the candidate exists in the spec with a matching value
(recursing when both values are mappings, requiring `==` otherwise) — a
candidate key absent from the spec makes the match fail, so a candidate with
extra keys never matches. -/
theorem C1_amended_rule (cand sp : List (String × Value)) :
    is_partial_dict (Value.dict cand) (Value.dict sp)
      = Except.ok (claimMatch cand (Value.dict sp)) :=
  ipd_claim cand sp

/-- C10 fails as stated on non-mapping elements: against the empty spec,
`get_partial_dict` invokes `is_partial_dict({}, 5)`, which returns `True`
although `5` is not a mapping, and the search returns the non-mapping
element. -/
theorem C10_cex :
    is_partial_dict (Value.dict []) (Value.int 5) = Except.ok true ∧
    Value.isDict (Value.int 5) = false ∧
    get_partial_dict [Value.int 5] (Value.dict []) = Except.ok (Value.int 5) := by
  refine ⟨?_, rfl, ?_⟩
  · simp [is_partial_dict, ipdEntries]
  · simp [get_partial_dict, takeTwoMatches, takeOneMatch, is_partial_dict,
      ipdEntries]

/-- C10 (amended): for sequences of mappings, the match direction really is
spec-subset-of-element — `get_partial_dict(sequence, spec)` invokes
`is_partial_dict(spec, element)` with swapped arguments, so an element
matches iff every key of the spec exists in it with an equal value
(recursing by the same rule), extra element keys being irrelevant; a
non-mapping element, however, vacuously matches an empty spec. -/
theorem C10_amended_direction (sp : List (String × Value)) (seq : List Value)
    (h : ∀ x ∈ seq, x.isDict = true) :
    get_partial_dict seq (Value.dict sp)
      = (match (seq.filter (claimMatch sp)).take 2 with
         | [] => Except.error GetPartialError.oneEmpty
         | [x] => Except.ok x
         | x :: y :: _ => Except.error (GetPartialError.oneNonUnique x y)) := by
  have hok : ∀ x ∈ seq, ipdOk (Value.dict sp) x = true := by
    intro x hx
    cases x with
    | dict fs => simp [ipdOk, ipd_claim]
    | int n => exact absurd (h _ hx) (by simp [Value.isDict])
    | str s => exact absurd (h _ hx) (by simp [Value.isDict])
  have hfil : seq.filter (pmatches (Value.dict sp))
      = seq.filter (claimMatch sp) := by
    apply List.filter_congr
    intro x hx
    cases x with
    | dict fs => simp [pmatches, ipd_claim]
    | int n => exact absurd (h _ hx) (by simp [Value.isDict])
    | str s => exact absurd (h _ hx) (by simp [Value.isDict])
  have ht := takeTwoMatches_filter (Value.dict sp) seq hok
  rw [hfil] at ht
  cases hft : (seq.filter (claimMatch sp)).take 2 with
  | nil => simp [get_partial_dict, ht, hft]
  | cons x t =>
      cases t with
      | nil => simp [get_partial_dict, ht, hft]
      | cons y t2 => simp [get_partial_dict, ht, hft]

/-- C10 witness: a one-element sequence of mappings where the element has an
extra key `b` unknown to the spec and still is returned as the unique
match. -/
theorem C10_amended_wit :
    (∀ x ∈ [Value.dict [("a", Value.int 1), ("b", Value.int 2)]],
        x.isDict = true) ∧
    get_partial_dict [Value.dict [("a", Value.int 1), ("b", Value.int 2)]]
        (Value.dict [("a", Value.int 1)])
      = Except.ok (Value.dict [("a", Value.int 1), ("b", Value.int 2)]) := by
  constructor
  · simp [Value.isDict]
  · rw [C10_amended_direction _ _ (by simp [Value.isDict])]
    simp [claimMatch, lookup, Value.beq]

/-- C8: calling `ensure_contains` on an array-of-tables raises `TypeError`
before any mutation, leaving the sequence unmodified; the typed-table
variant `ensure_aot_contains` accepts it. -/
theorem C8_aot_guard (s : Sequence) (objs : List Value) (h : s.isAoT = true) :
    ensure_contains s objs = ⟨true, s⟩ ∧
    (ensure_aot_contains s objs).raised = false := by
  simp [ensure_contains, h, ensure_aot_contains]

/-- C8 witness at a concrete array-of-tables. -/
theorem C8_aot_guard_wit :
    Sequence.isAoT ⟨true, [Value.int 1]⟩ = true ∧
    ensure_contains ⟨true, [Value.int 1]⟩ [Value.int 2]
      = ⟨true, ⟨true, [Value.int 1]⟩⟩ :=
  ⟨rfl, (C8_aot_guard ⟨true, [Value.int 1]⟩ [Value.int 2] rfl).1⟩

/-- C4: on a non-array-of-tables sequence, `ensure_contains` never raises;
it appends `v` at the end only when absent (no existing element is removed
or reordered), leaves the sequence unchanged when `v` is present, a second
identical call is a no-op, and after two calls an initially absent `v`
occurs exactly once. -/
theorem C4_ensure_contains_idem (s : Sequence) (v : Value)
    (h : s.isAoT = false) :
    (ensure_contains s [v]).raised = false ∧
    (v ∈ s.elems → (ensure_contains s [v]).final = s) ∧
    (v ∉ s.elems → (ensure_contains s [v]).final.elems = s.elems ++ [v]) ∧
    ensure_contains (ensure_contains s [v]).final [v] = ensure_contains s [v] ∧
    (v ∉ s.elems →
      (ensure_contains (ensure_contains s [v]).final [v]).final.elems.count v
        = 1) := by
  obtain ⟨aot, es⟩ := s
  dsimp at h
  subst h
  by_cases hv : v ∈ es
  · refine ⟨?_, ?_, ?_, ?_, ?_⟩
    · simp [ensure_contains]
    · intro _; simp [ensure_contains, hv]
    · intro hcontra; exact absurd hv hcontra
    · simp [ensure_contains, hv]
    · intro hcontra; exact absurd hv hcontra
  · refine ⟨?_, ?_, ?_, ?_, ?_⟩
    · simp [ensure_contains]
    · intro hcontra; exact absurd hcontra hv
    · intro _; simp [ensure_contains, hv]
    · simp [ensure_contains, hv]
    · intro _
      simp [ensure_contains, hv, List.count_append]
      rw [List.count_eq_zero]
      exact hv

/-- C4 witness: an initially absent scalar appended once across two calls. -/
theorem C4_ensure_contains_idem_wit :
    Sequence.isAoT ⟨false, [Value.int 7]⟩ = false ∧
    (ensure_contains (ensure_contains ⟨false, [Value.int 7]⟩
          [Value.int 1]).final [Value.int 1]).final.elems.count (Value.int 1)
      = 1 :=
  ⟨rfl, (C4_ensure_contains_idem ⟨false, [Value.int 7]⟩ (Value.int 1) rfl).2.2.2.2
    (by simp)⟩

/-- C7: when the match predicate raises nowhere on the sequence,
`get_partial_dict` returns the unique partially-matching element, fails with
`OneEmptyError` when zero elements match, and fails with `OneNonUniqueError`
carrying the first two matching elements when two or more match. -/
theorem C7_unique_match (seq : List Value) (sp : Value)
    (h : ∀ x ∈ seq, ipdOk sp x = true) :
    (seq.filter (pmatches sp) = [] →
        get_partial_dict seq sp = Except.error GetPartialError.oneEmpty) ∧
    (∀ m, seq.filter (pmatches sp) = [m] →
        get_partial_dict seq sp = Except.ok m) ∧
    (∀ m1 m2 r2, seq.filter (pmatches sp) = m1 :: m2 :: r2 →
        get_partial_dict seq sp
          = Except.error (GetPartialError.oneNonUnique m1 m2)) := by
  have ht := takeTwoMatches_filter sp seq h
  refine ⟨?_, ?_, ?_⟩
  · intro hf; rw [hf] at ht; simp [get_partial_dict, ht]
  · intro m hf; rw [hf] at ht; simp [get_partial_dict, ht]
  · intro m1 m2 r2 hf; rw [hf] at ht; simp [get_partial_dict, ht]

/-- C7 witness: two elements match a one-key spec, so the search fails with
`OneNonUniqueError` carrying exactly those first two matches. -/
theorem C7_unique_match_wit :
    (∀ x ∈ [Value.dict [("a", Value.int 1)],
            Value.dict [("a", Value.int 1), ("b", Value.int 2)]],
        ipdOk (Value.dict [("a", Value.int 1)]) x = true) ∧
    get_partial_dict
        [Value.dict [("a", Value.int 1)],
         Value.dict [("a", Value.int 1), ("b", Value.int 2)]]
        (Value.dict [("a", Value.int 1)])
      = Except.error (GetPartialError.oneNonUnique
          (Value.dict [("a", Value.int 1)])
          (Value.dict [("a", Value.int 1), ("b", Value.int 2)])) := by
  have h : ∀ x ∈ [Value.dict [("a", Value.int 1)],
      Value.dict [("a", Value.int 1), ("b", Value.int 2)]],
      ipdOk (Value.dict [("a", Value.int 1)]) x = true := by
    intro x hx
    fin_cases hx <;> simp [ipdOk, ipd_claim]
  refine ⟨h, (C7_unique_match _ _ h).2.2 _ _ [] ?_⟩
  simp [List.filter, pmatches, ipd_claim, claimMatch, lookup, Value.beq]

/-- C3 (amended): with no partial match present, `ensure_contains_partial`
appends exactly `spec | extra` and returns it; with exactly one match it
returns the existing element and appends nothing; and — provided the merged
element itself partially matches the spec (as when `extra` overrides no spec
key with a different value) — an identical second call appends nothing
further and returns the same element. -/
theorem C3_ensure_contains_idempotent (seq : List Value)
    (p : List (String × Value)) (extra : Option (List (String × Value))) :
    ((∀ x ∈ seq, is_partial_dict (Value.dict p) x = Except.ok false) →
      ensure_contains_partial seq p extra
        = Except.ok (seq ++ [Value.dict (dictMerge p (extra.getD []))],
            Value.dict (dictMerge p (extra.getD [])))) ∧
    (∀ m, (∀ x ∈ seq, ipdOk (Value.dict p) x = true) →
      seq.filter (pmatches (Value.dict p)) = [m] →
      ensure_contains_partial seq p extra = Except.ok (seq, m)) ∧
    ((∀ x ∈ seq, is_partial_dict (Value.dict p) x = Except.ok false) →
      is_partial_dict (Value.dict p) (Value.dict (dictMerge p (extra.getD [])))
        = Except.ok true →
      ensure_contains_partial
          (seq ++ [Value.dict (dictMerge p (extra.getD []))]) p extra
        = Except.ok (seq ++ [Value.dict (dictMerge p (extra.getD []))],
            Value.dict (dictMerge p (extra.getD [])))) := by
  refine ⟨?_, ?_, ?_⟩
  · intro h1
    have hok : ∀ x ∈ seq, ipdOk (Value.dict p) x = true := by
      intro x hx; simp [ipdOk, h1 x hx]
    have hfil : seq.filter (pmatches (Value.dict p)) = [] := by
      rw [List.filter_eq_nil_iff]
      intro x hx; simp [pmatches, h1 x hx]
    have ht := takeTwoMatches_filter (Value.dict p) seq hok
    rw [hfil] at ht
    have hget : get_partial_dict seq (Value.dict p)
        = Except.error GetPartialError.oneEmpty := by
      simp [get_partial_dict, ht]
    simp [ ensure_contains_partial, hget]
  · intro m hok hfil
    have ht := takeTwoMatches_filter (Value.dict p) seq hok
    rw [hfil] at ht
    have hget : get_partial_dict seq (Value.dict p) = Except.ok m := by
      simp [get_partial_dict, ht]
    simp [ ensure_contains_partial, hget]
  · intro h1 hm
    have hok : ∀ x ∈ seq ++ [Value.dict (dictMerge p (extra.getD []))],
        ipdOk (Value.dict p) x = true := by
      intro x hx
      rcases List.mem_append.mp hx with hx1 | hx2
      · simp [ipdOk, h1 x hx1]
      · rw [List.mem_singleton] at hx2
        subst hx2
        simp [ipdOk, hm]
    have hfil : (seq ++ [Value.dict (dictMerge p (extra.getD []))]).filter
        (pmatches (Value.dict p)) = [Value.dict (dictMerge p (extra.getD []))] := by
      rw [List.filter_append]
      have h2 : seq.filter (pmatches (Value.dict p)) = [] := by
        rw [List.filter_eq_nil_iff]
        intro x hx; simp [pmatches, h1 x hx]
      rw [h2]
      simp [pmatches, hm]
    have ht := takeTwoMatches_filter (Value.dict p)
      (seq ++ [Value.dict (dictMerge p (extra.getD []))]) hok
    rw [hfil] at ht
    have hget : get_partial_dict (seq ++ [Value.dict (dictMerge p (extra.getD []))])
        (Value.dict p) = Except.ok (Value.dict (dictMerge p (extra.getD []))) := by
      simp [get_partial_dict, ht]
    simp [ ensure_contains_partial, hget]

/-- C3 witness: on an empty sequence with disjoint `extra`, the first call
appends `spec | extra` and the second call returns it without appending. -/
theorem C3_ensure_contains_idempotent_wit :
    (∀ x ∈ ([] : List Value),
        is_partial_dict (Value.dict [("a", Value.int 1)]) x
          = Except.ok false) ∧
    ensure_contains_partial [] [("a", Value.int 1)]
        (some [("rev", Value.str "master")])
      = Except.ok ([Value.dict [("a", Value.int 1), ("rev", Value.str "master")]],
          Value.dict [("a", Value.int 1), ("rev", Value.str "master")]) := by
  have h0 : ∀ x ∈ ([] : List Value),
      is_partial_dict (Value.dict [("a", Value.int 1)]) x = Except.ok false := by
    simp
  refine ⟨h0, ?_⟩
  have := (C3_ensure_contains_idempotent []
    [("a", Value.int 1)] (some [("rev", Value.str "master")])).1 h0
  simpa [dictMerge, lookup] using this

/-- C3 fails as stated when `extra` overrides a spec key with a different
value: the appended element `{"a": 2}` does not partially match the spec
`{"a": 1}`, so a second identical call appends a second copy instead of
returning the existing element. -/
theorem C3_cex :
    ensure_contains_partial [] [("a", Value.int 1)] (some [("a", Value.int 2)])
      = Except.ok ([Value.dict [("a", Value.int 2)]],
          Value.dict [("a", Value.int 2)]) ∧
    ensure_contains_partial [Value.dict [("a", Value.int 2)]]
        [("a", Value.int 1)] (some [("a", Value.int 2)])
      = Except.ok ([Value.dict [("a", Value.int 2)],
          Value.dict [("a", Value.int 2)]],
          Value.dict [("a", Value.int 2)]) := by
  constructor <;>
    simp [ ensure_contains_partial, get_partial_dict, takeTwoMatches,
      takeOneMatch, is_partial_dict, ipdEntries, getItem, lookup, dictMerge,
      Value.beq_def, Value.beq]

/-- C5 fails on `lib.py`: the file reads "a" before the closure and "bb"
after it; the mutated document equals the parse of the pre-closure text, so
`yield_write_context` skips the write, although a comparison against the
just-reread snapshot (as `script.py` does) would write. -/
theorem C5_cex :
    yield_write_context String.length 0 toString (fun _ => 1) true
        (some "a") "bb"
      = ⟨false, none, false⟩ ∧
    script_yield_write_context String.length 0 toString (fun _ => 1)
        (some "a") "bb"
      = ⟨true, some "1", true⟩ := by
  constructor <;> rfl

/-- C5 (amended): `script.py`'s `_yield_write_context` compares the mutated
document against the parse of the just-reread post-closure content, while
`lib.py`'s `yield_write_context` re-parses the text read before the closure
ran — its outcome is independent of the post-closure disk content. -/
theorem C5_reread_comparison {T : Type} [BEq T] (loads : String → T) (d0 : T)
    (dumps : T → String) (closure : T → T) (track : Bool)
    (initial : Option String) (r1 r2 : String) :
    yield_write_context loads d0 dumps closure track initial r1
      = yield_write_context loads d0 dumps closure track initial r2 ∧
    (∀ s, (script_yield_write_context loads d0 dumps closure (some s) r1).wrote
        = !(closure (loads s) == loads r1)) := by
  constructor
  · cases initial <;> rfl
  · intro s
    cases hc : closure (loads s) == loads r1 <;>
      simp [script_yield_write_context, hc]

/-- C6: with a modification set supplied, the write context performs no
write and records nothing when the file existed and its parsed content is
structurally equal to the mutated document; when they differ, or the file
was absent, it writes the serialized document and records the path. -/
theorem C6_write_decision {T : Type} [BEq T] (loads : String → T) (d0 : T)
    (dumps : T → String) (closure : T → T) (initial : Option String)
    (r : String) :
    (∀ s, initial = some s → (closure (loads s) == loads s) = true →
        yield_write_context loads d0 dumps closure true initial r
          = ⟨false, none, false⟩) ∧
    (∀ s, initial = some s → (closure (loads s) == loads s) = false →
        yield_write_context loads d0 dumps closure true initial r
          = ⟨true, some (dumps (closure (loads s))), true⟩) ∧
    (initial = none →
        yield_write_context loads d0 dumps closure true initial r
          = ⟨true, some (dumps (closure d0)), true⟩) := by
  refine ⟨?_, ?_, ?_⟩
  · intro s hi hc; subst hi; simp [yield_write_context, hc]
  · intro s hi hc; subst hi; simp [yield_write_context, hc]
  · intro hi; subst hi; rfl

/-- C6 witness: an unchanged existing file is not rewritten. -/
theorem C6_write_decision_wit :
    (some "ab" = some "ab") ∧
    ((id (String.length "ab") == String.length "ab") = true) ∧
    yield_write_context String.length 0 toString id true (some "ab") "ab"
      = ⟨false, none, false⟩ :=
  ⟨rfl, rfl,
    (C6_write_decision String.length 0 toString id (some "ab") "ab").1 "ab"
      rfl rfl⟩

theorem claimMatch_flat (fs : List (String × Value)) :
    ∀ sp : List (String × Value), (∀ kv ∈ sp, kv.2.isDict = false) →
      claimMatch sp (Value.dict fs) = flatMatch sp (Value.dict fs)
  | [], _ => by simp [claimMatch, flatMatch]
  | (k, v) :: rest, hsp => by
      have hv : v.isDict = false := hsp (k, v) (List.mem_cons_self _ _)
      have ih := claimMatch_flat fs rest
        (fun kv2 h2 => hsp kv2 (List.mem_cons_of_mem _ h2))
      cases v with
      | dict sub => simp [Value.isDict] at hv
      | int n =>
          cases hl : lookup fs k with
          | none => simp [claimMatch, flatMatch, hl]
          | some w =>
              simp only [claimMatch, flatMatch, List.all_cons, hl,
                Option.isSome_some] at ih ⊢
              rw [ih]
              simp [Bool.and_assoc, Bool.and_left_comm, Bool.and_comm]
      | str t =>
          cases hl : lookup fs k with
          | none => simp [claimMatch, flatMatch, hl]
          | some w =>
              simp only [claimMatch, flatMatch, List.all_cons, hl,
                Option.isSome_some] at ih ⊢
              rw [ih]
              simp [Bool.and_assoc, Bool.and_left_comm, Bool.and_comm]

/-- C9 fails as stated for nested-mapping spec values: against the spec
`{"a": {}}`, the recursive search of `lib.py` accepts the element
`{"a": {"b": 1}}` (the inner empty spec constrains nothing) while the flat
search of `script.py` demands `d["a"] == {}` and finds no match. -/
theorem C9_cex :
    get_partial_dict [Value.dict [("a", Value.dict [("b", Value.int 1)])]]
        (Value.dict [("a", Value.dict [])])
      = Except.ok (Value.dict [("a", Value.dict [("b", Value.int 1)])]) ∧
    script_get_partial_dict
        [Value.dict [("a", Value.dict [("b", Value.int 1)])]]
        [("a", Value.dict [])]
      = Except.error GetPartialError.oneEmpty := by
  constructor
  · simp [get_partial_dict, takeTwoMatches, takeOneMatch, is_partial_dict,
      ipdEntries, getItem, lookup]
  · simp [script_get_partial_dict, flatMatch, lookup, Value.beq_def,
      Value.beq, beqEntries, List.filter]

/-- C9 (amended): on sequences whose elements are all mappings and specs
none of whose values are mappings, the flat search of `_get_partial_dict`
(`script.py`) and the recursive search of `get_partial_dict` (`lib.py`)
classify exactly the same elements as matches and return the same element or
fail with the same error. -/
theorem C9_flat_recursive_agree (seq : List Value)
    (sp : List (String × Value)) (hseq : ∀ x ∈ seq, x.isDict = true)
    (hsp : ∀ kv ∈ sp, kv.2.isDict = false) :
    script_get_partial_dict seq sp = get_partial_dict seq (Value.dict sp) := by
  have hok : ∀ x ∈ seq, ipdOk (Value.dict sp) x = true := by
    intro x hx
    cases x with
    | dict fs => simp [ipdOk, ipd_claim]
    | int n => exact absurd (hseq _ hx) (by simp [Value.isDict])
    | str t => exact absurd (hseq _ hx) (by simp [Value.isDict])
  have hfil : seq.filter (pmatches (Value.dict sp))
      = seq.filter (flatMatch sp) := by
    apply List.filter_congr
    intro x hx
    cases x with
    | dict fs =>
        rw [show pmatches (Value.dict sp) (Value.dict fs)
            = claimMatch sp (Value.dict fs) by simp [pmatches, ipd_claim]]
        exact claimMatch_flat fs sp hsp
    | int n => exact absurd (hseq _ hx) (by simp [Value.isDict])
    | str t => exact absurd (hseq _ hx) (by simp [Value.isDict])
  have ht := takeTwoMatches_filter (Value.dict sp) seq hok
  rw [hfil] at ht
  cases hft : (seq.filter (flatMatch sp)).take 2 with
  | nil => simp [script_get_partial_dict, get_partial_dict, ht, hft]
  | cons x t =>
      cases t with
      | nil => simp [script_get_partial_dict, get_partial_dict, ht, hft]
      | cons y t2 => simp [script_get_partial_dict, get_partial_dict, ht, hft]

/-- C9 witness: for a flat spec over a sequence of mappings the two
implementations return the same unique element. -/
theorem C9_flat_recursive_agree_wit :
    (∀ x ∈ [Value.dict [("a", Value.int 1)]], x.isDict = true) ∧
    (∀ kv ∈ [("a", Value.int 1)], Value.isDict kv.2 = false) ∧
    script_get_partial_dict [Value.dict [("a", Value.int 1)]]
        [("a", Value.int 1)]
      = get_partial_dict [Value.dict [("a", Value.int 1)]]
          (Value.dict [("a", Value.int 1)]) :=
  ⟨by simp [Value.isDict], by simp [Value.isDict],
    C9_flat_recursive_agree _ _ (by simp [Value.isDict])
      (by simp [Value.isDict])⟩
